import Mathlib

/-!
Shallow embedding of the Monty Hall simulator in `monty.py`.

The Python module uses the process-wide random source via `randint`.  We
embed the random source as an explicit stream of naturals together with a
cursor (`Rng`); every call to `randint lo hi` consumes one draw and reduces
it into the requested closed interval, mirroring a uniform integer source.
All functions thread the `Rng` state explicitly; functions that call no
randomness (the keep and switch evaluators) take no `Rng`, exactly as the
Python functions call no `randint`.

Machine floats in the Python code (`wins / attempts`) are embedded as `ℚ`.
-/

/-- A pseudo-random source: an infinite stream of naturals and a cursor. -/
structure Rng where
  f : ℕ → ℕ
  k : ℕ

/-- Embedding of Python `randint(lo, hi)`: consume one draw and reduce it
into `[lo, hi]`. -/
def randint (lo hi : ℕ) (r : Rng) : ℕ × Rng :=
  (lo + r.f r.k % (hi + 1 - lo), ⟨r.f, r.k + 1⟩)

/-- A game is the Python 3-element boolean list `doors`. -/
structure Game where
  d0 : Bool
  d1 : Bool
  d2 : Bool
deriving DecidableEq

/-- Indexing `doors[i]` for the indices the code actually uses (0, 1, 2). -/
def Game.door (g : Game) : ℕ → Bool
  | 0 => g.d0
  | 1 => g.d1
  | 2 => g.d2
  | _ => false

/-- Embedding of `doors = [False] * 3; doors[winner] = True`. -/
def set_winner (winner : ℕ) : Game :=
  ⟨decide (winner = 0), decide (winner = 1), decide (winner = 2)⟩

/-- Embedding of `generate_game(n)` from `monty.py`: build a list of `n`
games, each with `randint(0, 2)` choosing the winning door. -/
def generate_game : ℕ → Rng → List Game × Rng
  | 0, r => ([], r)
  | n + 1, r =>
      let p := randint 0 2 r
      let rest := generate_game n p.2
      (set_winner p.1 :: rest.1, rest.2)

/-- The generator at the spec's `generate_batch` interface, taking an
integer count the way the Python `int` parameter does: `range(n)` is empty
for every `n ≤ 0`, which is `Int.toNat`. -/
def generate_batch (n : ℤ) (r : Rng) : List Game × Rng :=
  generate_game n.toNat r

/-- Embedding of `reveal_goat(doors)`: scan indices 1 and 2, return the
first one holding `False`; falling off the loop returns Python `None`,
embedded as `none`. -/
def reveal_goat (doors : Game) : Option ℕ :=
  if doors.d1 = false then some 1
  else if doors.d2 = false then some 2
  else none

/-- Embedding of `simulate_keep_choice(game)`: one win per game whose door
0 is `True`; the loop's running `wins` accumulator is the sum of the
per-game increments. -/
def simulate_keep_choice : List Game → ℕ
  | [] => 0
  | doors :: rest =>
      (if doors.d0 = true then 1 else 0) + simulate_keep_choice rest

/-- Embedding of `simulate_switch_choice(game)`.  Python's
`1 if goat == 2 else 2` compares an `Optional[int]` with `2`, and `None == 2`
is false, hence the `some 2` test. -/
def simulate_switch_choice : List Game → ℕ
  | [] => 0
  | doors :: rest =>
      let goat := reveal_goat doors
      let new_choice : ℕ := if goat = some 2 then 1 else 2
      (if doors.door new_choice = true then 1 else 0)
        + simulate_switch_choice rest

/-- The loop of `simulate_random_choice`, with the `wins`, `attempts` and
`history` accumulators explicit.  Python's
`0 if new_choice == 0 else 2 if goat == 1 else 1` again compares the
`Optional[int]` `goat` with `1`. -/
def simulate_random_choice_loop :
    List Game → ℕ → ℕ → List ℚ → Rng → (ℕ × List ℚ) × Rng
  | [], wins, _attempts, history, r => ((wins, history), r)
  | doors :: rest, wins, attempts, history, r =>
      let attempts' := attempts + 1
      let goat := reveal_goat doors
      let p := randint 0 1 r
      let final_choice : ℕ :=
        if p.1 = 0 then 0 else if goat = some 1 then 2 else 1
      let wins' := if doors.door final_choice = true then wins + 1 else wins
      simulate_random_choice_loop rest wins' attempts'
        (history ++ [(wins' : ℚ) / (attempts' : ℚ)]) p.2

/-- Embedding of `simulate_random_choice(game)`: returns
`(wins, history)` plus the advanced random state. -/
def simulate_random_choice (game : List Game) (r : Rng) :
    (ℕ × List ℚ) × Rng :=
  simulate_random_choice_loop game 0 0 [] r

/-- Embedding of `run(iterations)`: generate one batch of
`iterations // 2` games, evaluate the switch and the keep strategy on it,
and return `wins / iterations * 2` for each. -/
def run (iterations : ℕ) (r : Rng) : (ℚ × ℚ) × Rng :=
  let p := generate_game (iterations / 2) r
  let switched_wins := simulate_switch_choice p.1
  let stayed_wins := simulate_keep_choice p.1
  (((switched_wins : ℚ) / (iterations : ℚ) * 2,
    (stayed_wins : ℚ) / (iterations : ℚ) * 2), p.2)

/-- The spec's description of `run`, stated for comparison with the code:
it says each strategy is evaluated against its own freshly generated batch
of `iterations / 2` games, so the keep batch here is generated from the
random state left by generating the switch batch. -/
def run_spec_two_batches (iterations : ℕ) (r : Rng) : (ℚ × ℚ) × Rng :=
  let p1 := generate_game (iterations / 2) r
  let p2 := generate_game (iterations / 2) p1.2
  (((simulate_switch_choice p1.1 : ℚ) / (iterations : ℚ) * 2,
    (simulate_keep_choice p2.1 : ℚ) / (iterations : ℚ) * 2), p2.2)

/-- A well-formed game: exactly one `true` slot among the three doors. -/
def WellFormed (g : Game) : Prop :=
  (if g.d0 then 1 else 0) + (if g.d1 then 1 else 0)
    + (if g.d2 then 1 else 0) = (1 : ℕ)

instance (g : Game) : Decidable (WellFormed g) := by
  unfold WellFormed; infer_instance

/-! ### Helper lemmas -/

lemma set_winner_wf (w : ℕ) (hw : w < 3) : WellFormed (set_winner w) := by
  interval_cases w <;> decide

lemma generate_game_length (n : ℕ) (r : Rng) :
    (generate_game n r).1.length = n := by
  induction n generalizing r with
  | zero => rfl
  | succ n ih => simp [generate_game, ih]

lemma generate_game_wf (n : ℕ) (r : Rng) :
    ∀ g ∈ (generate_game n r).1, WellFormed g := by
  induction n generalizing r with
  | zero => simp [generate_game]
  | succ n ih =>
      intro g hg
      simp only [generate_game, List.mem_cons] at hg
      rcases hg with hg | hg
      · subst hg
        exact set_winner_wf _ (by simp [randint]; omega)
      · exact ih _ g hg

lemma switch_keep_one (g : Game) (hg : WellFormed g) :
    (if g.door (if reveal_goat g = some 2 then 1 else 2) = true then 1 else 0)
      + (if g.d0 = true then 1 else 0) = 1 := by
  rcases g with ⟨a, b, c⟩
  revert hg
  cases a <;> cases b <;> cases c <;> decide

lemma switch_keep_sum (b : List Game) (hb : ∀ g ∈ b, WellFormed g) :
    simulate_switch_choice b + simulate_keep_choice b = b.length := by
  induction b with
  | nil => rfl
  | cons g rest ih =>
      have hg : WellFormed g := hb g (by simp)
      have hr := ih (fun x hx => hb x (by simp [hx]))
      have h1 := switch_keep_one g hg
      simp only [simulate_switch_choice, simulate_keep_choice, List.length_cons]
      omega

lemma loop_hist_length (l : List Game) (w a : ℕ) (h : List ℚ) (r : Rng) :
    ((simulate_random_choice_loop l w a h r).1.2).length
      = h.length + l.length := by
  induction l generalizing w a h r with
  | nil => simp [simulate_random_choice_loop]
  | cons d rest ih =>
      simp only [simulate_random_choice_loop]
      rw [ih]
      simp
      omega

lemma loop_hist_acc (l : List Game) (w a : ℕ) (h : List ℚ) (r : Rng) :
    simulate_random_choice_loop l w a h r
      = (((simulate_random_choice_loop l w a [] r).1.1,
          h ++ (simulate_random_choice_loop l w a [] r).1.2),
         (simulate_random_choice_loop l w a [] r).2) := by
  induction l generalizing w a h r with
  | nil => simp [simulate_random_choice_loop]
  | cons d rest ih =>
      simp only [simulate_random_choice_loop]
      rw [ih, ih ((if d.door _ = true then w + 1 else w)) (a + 1) ([] ++ [_])]
      simp

lemma loop_cons (d : Game) (rest : List Game) (w a : ℕ) (h : List ℚ)
    (r : Rng) :
    simulate_random_choice_loop (d :: rest) w a h r
      = simulate_random_choice_loop rest
          (if d.door (if (randint 0 1 r).1 = 0 then 0
              else if reveal_goat d = some 1 then 2 else 1) = true
            then w + 1 else w)
          (a + 1)
          (h ++ [((if d.door (if (randint 0 1 r).1 = 0 then 0
              else if reveal_goat d = some 1 then 2 else 1) = true
            then w + 1 else w : ℕ) : ℚ) / ((a + 1 : ℕ) : ℚ)])
          (randint 0 1 r).2 := rfl

lemma loop_append (l1 l2 : List Game) (w a : ℕ) (h : List ℚ) (r : Rng) :
    simulate_random_choice_loop (l1 ++ l2) w a h r
      = simulate_random_choice_loop l2
          (simulate_random_choice_loop l1 w a h r).1.1
          (a + l1.length)
          (simulate_random_choice_loop l1 w a h r).1.2
          (simulate_random_choice_loop l1 w a h r).2 := by
  induction l1 generalizing w a h r with
  | nil => simp [simulate_random_choice_loop]
  | cons d rest ih =>
      rw [List.cons_append, loop_cons, loop_cons, ih]
      rw [show a + (d :: rest).length = a + 1 + rest.length by simp; omega]

lemma loop_getLast (l : List Game) (w a : ℕ) (h : List ℚ) (r : Rng)
    (hl : l ≠ []) :
    ((simulate_random_choice_loop l w a h r).1.2).getLast?
      = some (((simulate_random_choice_loop l w a h r).1.1 : ℚ)
          / ((a + l.length : ℕ) : ℚ)) := by
  induction l generalizing w a h r with
  | nil => exact absurd rfl hl
  | cons d rest ih =>
      rcases rest with _ | ⟨d2, rest2⟩
      · simp [simulate_random_choice_loop]
      · rw [loop_cons, ih _ _ _ _ (by simp)]
        rw [show a + 1 + (d2 :: rest2).length
              = a + (d :: d2 :: rest2).length by simp; omega]

/-! ### Claim theorems -/

/-- C4: for every well-formed game (exactly one true slot among the 3
doors), `reveal_goat` returns an index in `{1, 2}` that is never the prize
door — it never returns 0, never returns the prize index when the prize is
at index 1 or 2, and returns index 1 when both doors 1 and 2 are goats
(prize at index 0). -/
theorem monty_reveal_goat_sound (g : Game) (h : WellFormed g) :
    ∃ i, reveal_goat g = some i ∧ (i = 1 ∨ i = 2) ∧ g.door i = false ∧
      (g.d0 = true → i = 1) := by
  rcases g with ⟨a, b, c⟩
  revert h
  cases a <;> cases b <;> cases c <;> decide

/-- Witness for C4 at the game with the prize at index 1. -/
theorem monty_reveal_goat_sound_witness :
    WellFormed ⟨false, true, false⟩ ∧
      ∃ i, reveal_goat ⟨false, true, false⟩ = some i ∧ (i = 1 ∨ i = 2) ∧
        Game.door ⟨false, true, false⟩ i = false ∧
        (Game.d0 ⟨false, true, false⟩ = true → i = 1) :=
  ⟨by decide, monty_reveal_goat_sound ⟨false, true, false⟩ (by decide)⟩

/-- C5: for every well-formed game, `evaluate_switch`
(`simulate_switch_choice`) applied to the single-game batch containing it
returns 1 if index 0 is not the prize door and 0 if index 0 is the prize
door. -/
theorem monty_switch_single (g : Game) (h : WellFormed g) :
    simulate_switch_choice [g] = if g.d0 = true then 0 else 1 := by
  rcases g with ⟨a, b, c⟩
  revert h
  cases a <;> cases b <;> cases c <;> decide

/-- Witness for C5 at the game with the prize at index 2. -/
theorem monty_switch_single_witness :
    WellFormed ⟨false, false, true⟩ ∧
      simulate_switch_choice [⟨false, false, true⟩]
        = if Game.d0 ⟨false, false, true⟩ = true then 0 else 1 :=
  ⟨by decide, monty_switch_single ⟨false, false, true⟩ (by decide)⟩

/-- C6: for every well-formed game, `evaluate_keep`
(`simulate_keep_choice`) applied to the single-game batch containing it
returns 1 if index 0 is the prize door and 0 otherwise.  The function is a
pure counting pass: its type consumes no `Rng` (the Python body calls no
`randint`) and it returns only the count, leaving the input list
untouched. -/
theorem monty_keep_single (g : Game) (h : WellFormed g) :
    simulate_keep_choice [g] = if g.d0 = true then 1 else 0 := by
  rcases g with ⟨a, b, c⟩
  revert h
  cases a <;> cases b <;> cases c <;> decide

/-- Witness for C6 at the game with the prize at index 0. -/
theorem monty_keep_single_witness :
    WellFormed ⟨true, false, false⟩ ∧
      simulate_keep_choice [⟨true, false, false⟩]
        = if Game.d0 ⟨true, false, false⟩ = true then 1 else 0 :=
  ⟨by decide, monty_keep_single ⟨true, false, false⟩ (by decide)⟩

/-- C10: for every malformed game in which the doors at index 1 and
index 2 are both true, `reveal_goat` returns no door index at all
(Python's implicit `None`) and raises no error: the malformed game is
silently passed through. -/
theorem monty_reveal_goat_malformed (g : Game) (h1 : g.d1 = true)
    (h2 : g.d2 = true) : reveal_goat g = none := by
  simp [reveal_goat, h1, h2]

/-- Witness for C10 at the game with prizes at indices 1 and 2. -/
theorem monty_reveal_goat_malformed_witness :
    Game.d1 ⟨false, true, true⟩ = true ∧ Game.d2 ⟨false, true, true⟩ = true ∧
      reveal_goat ⟨false, true, true⟩ = none :=
  ⟨by decide, by decide,
    monty_reveal_goat_malformed ⟨false, true, true⟩ rfl rfl⟩

/-- C9: `generate_batch 0` returns an empty batch, and each of
`simulate_keep_choice`, `simulate_switch_choice` and
`simulate_random_choice` applied to an empty batch returns 0 wins (with an
empty history for the random evaluator), for every random state, without
any error path being taken (all four functions are total). -/
theorem monty_empty_batch (r : Rng) :
    generate_batch 0 r = ([], r) ∧
      simulate_keep_choice [] = 0 ∧
      simulate_switch_choice [] = 0 ∧
      simulate_random_choice [] r = ((0, []), r) :=
  ⟨rfl, rfl, rfl, rfl⟩

/-- C2 counterexample: `generate_batch (-1)` does not fail with an
`InvalidArgument` condition — the embedding of the Python code is total
(Python's `range(-1)` is empty) and it successfully returns an empty
batch with the random state untouched. -/
theorem monty_generate_batch_negative_cex :
    generate_batch (-1) ⟨fun _ => 0, 0⟩ = ([], ⟨fun _ => 0, 0⟩) := rfl

/-- C2 as amended: for every non-positive integer `n`, `generate_batch n`
returns the empty batch without consuming randomness and without any
error; in particular `generate_batch 0` yields an empty batch. -/
theorem monty_generate_batch_nonpos (n : ℤ) (h : n ≤ 0) (r : Rng) :
    generate_batch n r = ([], r) := by
  unfold generate_batch
  rw [Int.toNat_of_nonpos h]
  rfl

/-- Witness for the amended C2 at `n = -2`. -/
theorem monty_generate_batch_nonpos_witness :
    (-2 : ℤ) ≤ 0 ∧ generate_batch (-2) ⟨fun _ => 1, 0⟩ = ([], ⟨fun _ => 1, 0⟩) :=
  ⟨by decide, monty_generate_batch_nonpos (-2) (by decide) ⟨fun _ => 1, 0⟩⟩

/-- C7: for every non-negative integer `n` and every random state,
`generate_batch n` returns a batch of exactly `n` games, and every game in
the batch has exactly one true slot among its 3 doors. -/
theorem monty_generate_batch_wf (n : ℤ) (_h : 0 ≤ n) (r : Rng) :
    (generate_batch n r).1.length = n.toNat ∧
      ∀ g ∈ (generate_batch n r).1, WellFormed g :=
  ⟨generate_game_length n.toNat r, generate_game_wf n.toNat r⟩

/-- Witness for C7 at `n = 3` with an explicit stream. -/
theorem monty_generate_batch_wf_witness :
    (0 : ℤ) ≤ 3 ∧
      ((generate_batch 3 ⟨fun k => k, 0⟩).1.length = (3 : ℤ).toNat ∧
        ∀ g ∈ (generate_batch 3 ⟨fun k => k, 0⟩).1, WellFormed g) :=
  ⟨by decide, monty_generate_batch_wf 3 (by decide) ⟨fun k => k, 0⟩⟩

/-- C1 counterexample: with the stream drawing 1 then 0 and `iterations
= 2`, the code's `run` (one shared batch) and the spec's two-batch
orchestration disagree on the keep-strategy rate (0 versus 1), so `run`
does not evaluate each strategy against its own independently generated
batch. -/
theorem monty_run_two_batches_cex :
    (run 2 ⟨fun k => if k = 0 then 1 else 0, 0⟩).1.2
      ≠ (run_spec_two_batches 2 ⟨fun k => if k = 0 then 1 else 0, 0⟩).1.2 := by
  norm_num [run, run_spec_two_batches, generate_game, randint, set_winner,
    simulate_switch_choice, simulate_keep_choice, reveal_goat, Game.door]

/-- C1 as amended: `run iterations` generates a single batch of
`iterations / 2` games and evaluates both the switch strategy and the keep
strategy against that same shared batch; consequently their win counts sum
to `iterations / 2`, since on every well-formed game exactly one of the
two strategies wins. -/
theorem monty_run_shares_one_batch (it : ℕ) (r : Rng) :
    run it r
      = (((simulate_switch_choice (generate_game (it / 2) r).1 : ℚ)
            / (it : ℚ) * 2,
          (simulate_keep_choice (generate_game (it / 2) r).1 : ℚ)
            / (it : ℚ) * 2),
         (generate_game (it / 2) r).2) ∧
      simulate_switch_choice (generate_game (it / 2) r).1
        + simulate_keep_choice (generate_game (it / 2) r).1 = it / 2 := by
  refine ⟨rfl, ?_⟩
  rw [switch_keep_sum _ (generate_game_wf _ r), generate_game_length]

/-- C3 counterexample: at `iterations = 3` with the constant-1 stream the
batch has `3 / 2 = 1` game (prize at index 1, so the switch strategy wins
it), and `run` reports the switch rate `1 / 3 * 2 = 2/3`, not
`win_count / floor(iterations / 2) = 1 / 1 = 1`. -/
theorem monty_run_rate_odd_cex :
    (run 3 ⟨fun _ => 1, 0⟩).1.1
      ≠ ((simulate_switch_choice (generate_game (3 / 2) ⟨fun _ => 1, 0⟩).1 : ℚ)
          / (((3 : ℕ) / 2 : ℕ) : ℚ)) := by
  norm_num [run, generate_game, randint, set_winner,
    simulate_switch_choice, reveal_goat, Game.door]

/-- C3 as amended: `run` computes each rate as `win_count / iterations * 2`;
for every even nonzero iteration count this equals
`win_count / (iterations / 2)`, the win count divided by the number of
games in the shared batch, but for odd iteration counts the two differ. -/
theorem monty_run_rate_even (it : ℕ) (r : Rng) (h0 : it ≠ 0)
    (h2 : it % 2 = 0) :
    (run it r).1.1
        = ((simulate_switch_choice (generate_game (it / 2) r).1 : ℚ))
            / ((it / 2 : ℕ) : ℚ) ∧
      (run it r).1.2
        = ((simulate_keep_choice (generate_game (it / 2) r).1 : ℚ))
            / ((it / 2 : ℕ) : ℚ) := by
  obtain ⟨m, rfl⟩ : ∃ m, it = 2 * m := ⟨it / 2, by omega⟩
  have hm : m ≠ 0 := by omega
  have hdiv : 2 * m / 2 = m := by omega
  have hmq : (m : ℚ) ≠ 0 := Nat.cast_ne_zero.mpr hm
  have key : ∀ w : ℕ, (w : ℚ) / ((2 * m : ℕ) : ℚ) * 2 = (w : ℚ) / (m : ℚ) := by
    intro w
    push_cast
    field_simp
    ring
  constructor
  · simp only [run, hdiv]
    exact key _
  · simp only [run, hdiv]
    exact key _

/-- Witness for the amended C3 at `iterations = 2` with the constant-2
stream. -/
theorem monty_run_rate_even_witness :
    (2 : ℕ) ≠ 0 ∧ (2 : ℕ) % 2 = 0 ∧
      ((run 2 ⟨fun _ => 2, 0⟩).1.1
          = ((simulate_switch_choice (generate_game (2 / 2) ⟨fun _ => 2, 0⟩).1 : ℚ))
              / (((2 : ℕ) / 2 : ℕ) : ℚ) ∧
        (run 2 ⟨fun _ => 2, 0⟩).1.2
          = ((simulate_keep_choice (generate_game (2 / 2) ⟨fun _ => 2, 0⟩).1 : ℚ))
              / (((2 : ℕ) / 2 : ℕ) : ℚ)) :=
  ⟨by decide, by decide,
    monty_run_rate_even 2 ⟨fun _ => 2, 0⟩ (by decide) (by decide)⟩

/-- C8: for every batch and every random state, the history returned by
`evaluate_random` (`simulate_random_choice`) has length equal to the
batch size, its entry at position `k` equals the win count over the first
`k + 1` games divided by `k + 1`, and for a non-empty batch its final
entry equals the returned win count divided by the batch size. -/
theorem monty_random_history (game : List Game) (r : Rng) :
    ((simulate_random_choice game r).1.2).length = game.length ∧
    (∀ k, k < game.length →
      ((simulate_random_choice game r).1.2)[k]?
        = some (((simulate_random_choice (game.take (k + 1)) r).1.1 : ℚ)
            / ((k + 1 : ℕ) : ℚ))) ∧
    (game ≠ [] →
      ((simulate_random_choice game r).1.2).getLast?
        = some (((simulate_random_choice game r).1.1 : ℚ)
            / ((game.length : ℕ) : ℚ))) := by
  refine ⟨?_, ?_, ?_⟩
  · unfold simulate_random_choice
    rw [loop_hist_length]
    simp
  · intro k hk
    have htl : (game.take (k + 1)).length = k + 1 := by
      rw [List.length_take]; omega
    have htn : game.take (k + 1) ≠ [] := by
      intro hnil
      rw [hnil] at htl
      simp at htl
    conv_lhs =>
      rw [show game = game.take (k + 1) ++ game.drop (k + 1) from
        (List.take_append_drop _ _).symm]
    unfold simulate_random_choice
    rw [loop_append, loop_hist_acc (game.drop (k + 1))]
    have hlen :
        ((simulate_random_choice_loop (game.take (k + 1)) 0 0 [] r).1.2).length
          = k + 1 := by
      rw [loop_hist_length]; simpa using htl
    have hg :
        ((simulate_random_choice_loop (game.take (k + 1)) 0 0 [] r).1.2).getLast?
          = ((simulate_random_choice_loop (game.take (k + 1)) 0 0 [] r).1.2)[k]? := by
      rw [List.getLast?_eq_getElem?, hlen]
      norm_num
    simp only [Prod.fst, Prod.snd]
    rw [List.getElem?_append_left (by rw [hlen]; omega)]
    rw [← hg, loop_getLast _ _ _ _ _ htn, htl]
    norm_num
  · intro hne
    unfold simulate_random_choice
    rw [loop_getLast _ _ _ _ _ hne]
    norm_num

/-- Witness for C8: the final-entry conjunct at a concrete single-game
batch and stream, with the non-emptiness hypothesis discharged. -/
theorem monty_random_history_witness :
    ([(⟨false, true, false⟩ : Game)] ≠ ([] : List Game)) ∧
      ((simulate_random_choice [(⟨false, true, false⟩ : Game)]
          ⟨fun _ => 1, 0⟩).1.2).getLast?
        = some (((simulate_random_choice [(⟨false, true, false⟩ : Game)]
              ⟨fun _ => 1, 0⟩).1.1 : ℚ)
            / ((List.length [(⟨false, true, false⟩ : Game)] : ℕ) : ℚ)) :=
  ⟨by decide,
    (monty_random_history [⟨false, true, false⟩] ⟨fun _ => 1, 0⟩).2.2
      (by decide)⟩
